import Mathlib

/-!
Verification of the money-text normalizer (`limpiar_celda_dinero_auditado`) and
the fiscal decomposer (`calcular_impuestos`) of `src/transformation.py`, together
with the strictly-positive amount filter of `main.py`.

Texts are embedded as `List Char`; Python floats are embedded as exact rationals
(`ℚ`); a possibly-missing (NaN) exchange rate is `Option ℚ` with `none` for NaN.
The regex scans of the source are embedded as explicit left-to-right scanners
with a fuel argument equal to the length of the scanned text, which every scan
step strictly decreases, so the fuel never runs out.
-/

namespace EtlIngresos

/-- Python `str.strip` whitespace set (`\s` of the regexes as well):
space, tab, newline, carriage return, vertical tab, form feed. -/
def esEspacioPy (c : Char) : Bool :=
  c == ' ' || c == '\t' || c == '\n' || c == '\x0d' || c == '\x0b' || c == '\x0c'

/-- ASCII letter, the class `[a-zA-Z]` of `re.search(r'[a-zA-Z]', texto)`. -/
def esLetraAscii (c : Char) : Bool :=
  ('a' ≤ c && c ≤ 'z') || ('A' ≤ c && c ≤ 'Z')

/-- A character of the class `[\d.,]` used by `re.findall(r'[\d.,]+', ...)`. -/
def esCaracterNum (c : Char) : Bool :=
  c.isDigit || c == '.' || c == ','

/-- `str.lower` on the embedded text (ASCII case folding). -/
def pyLower (l : List Char) : List Char := l.map Char.toLower

/-- `str.strip`: drop leading and trailing whitespace. -/
def pyStrip (l : List Char) : List Char :=
  ((l.dropWhile esEspacioPy).reverse.dropWhile esEspacioPy).reverse

/-- `str(valor).lower().strip()` — canonicalization of the raw cell. -/
def canonizar (valor : List Char) : List Char := pyStrip (pyLower valor)

/-- The terminal-case test `not texto or texto in ['nan', 'none']`. -/
def esTextoNulo (t : List Char) : Bool :=
  t.isEmpty || t == ("nan").data || t == ("none").data

/-- Numeric value of a digit string, most significant digit first. -/
def digitosVal (l : List Char) : ℕ :=
  l.foldl (fun a c => 10 * a + (c.toNat - 48)) 0

/-- Digits before the (first) dot of a digits-and-dots string. -/
def parteEntera (l : List Char) : List Char :=
  l.takeWhile (fun c => c != '.')

/-- Digits after the (first) dot of a digits-and-dots string. -/
def parteFrac (l : List Char) : List Char :=
  (l.dropWhile (fun c => c != '.')).drop 1

/-- The exact value Python's `float` gives a digits-and-dots string with at
most one dot. -/
def floatVal (l : List Char) : ℚ :=
  (digitosVal (parteEntera l) : ℚ) +
    (digitosVal (parteFrac l) : ℚ) / 10 ^ (parteFrac l).length

/-- Python `float(s)` restricted to strings of digits and dots, which is the
only shape reaching `float` in the source (`monto_clean` and `n_clean` consist
of characters of `[\d.,]` with every `,` turned into `.`, and `n_clean` has had
every `.` removed before that).  It succeeds exactly when the string has at
least one digit and at most one dot. -/
def parseFloat? (l : List Char) : Option ℚ :=
  if l.any Char.isDigit ∧ l.count ('.') ≤ 1 ∧ l.all (fun c => c.isDigit || c == '.') then
    some (floatVal l)
  else none

/-- `s.replace(',', '.')`. -/
def comaAPunto (l : List Char) : List Char :=
  l.map (fun c => if c = ',' then '.' else c)

/-- `s.replace('.', '')`. -/
def quitarPuntos (l : List Char) : List Char :=
  l.filter (fun c => c != '.')

/-- `texto.replace(sub, "", 1)`: remove the first occurrence of `sub`. -/
def quitarPrimera : List Char → List Char → List Char
  | [], _ => []
  | c :: rest, m =>
    if m.isPrefixOf (c :: rest) then (c :: rest).drop m.length
    else c :: quitarPrimera rest m

/-- The currency-marker alternation `(?:u\$|usd|us|dolar)` of `patron_usd`,
alternatives tried in the pattern's order; returns the text after the marker. -/
def marcadorUSD? (l : List Char) : Option (List Char) :=
  if l.take 2 = [ 'u', '$' ] then some (l.drop 2)
  else if l.take 3 = [ 'u', 's', 'd' ] then some (l.drop 3)
  else if l.take 2 = [ 'u', 's' ] then some (l.drop 2)
  else if l.take 5 = [ 'd', 'o', 'l', 'a', 'r' ] then some (l.drop 5)
  else none

/-- One attempt of the tail `\d*\s*(?:u\$|usd|us|dolar)` of `patron_usd` after
the integer digits `d1` and an optional separator `punct` have been consumed.
Returns the captured numeral and the text after the whole match. -/
def intentoNum (d1 punct r : List Char) : Option (List Char × List Char) :=
  let d2 := r.takeWhile Char.isDigit
  let r2 := (r.drop d2.length).dropWhile esEspacioPy
  (marcadorUSD? r2).map (fun resto => (d1 ++ punct ++ d2, resto))

/-- Attempt to match `patron_usd = (\d+[.,]?\d*)\s*(?:u\$|usd|us|dolar)` at the
start of `l`.  The engine's backtracking collapses to: consume the maximal run
of digits, greedily take one `.`/`,` if present (retrying without it on
failure — the retry can never succeed, but is kept for fidelity), consume
trailing digits and whitespace, then require a currency marker. -/
def intentoUSD (l : List Char) : Option (List Char × List Char) :=
  let d1 := l.takeWhile Char.isDigit
  if d1 = [] then none
  else
    match l.drop d1.length with
    | c :: r =>
      if c = '.' ∨ c = ',' then
        match intentoNum d1 [ c ] r with
        | some res => some res
        | none => intentoNum d1 [] (c :: r)
      else intentoNum d1 [] (c :: r)
    | [] => intentoNum d1 [] []

/-- `re.findall(patron_usd, texto)`: left-to-right non-overlapping scan; on a
failed attempt the scan advances one character, on a success it resumes after
the match.  `fuel` bounds the number of scan steps; every step consumes at
least one character of the text, so `fuel = texto.length` suffices. -/
def findallUSDAux : ℕ → List Char → List (List Char)
  | 0, _ => []
  | _ + 1, [] => []
  | fuel + 1, c :: rest =>
    match intentoUSD (c :: rest) with
    | some (g, resto) => g :: findallUSDAux fuel resto
    | none => findallUSDAux fuel rest

/-- `re.findall(patron_usd, texto)` with the fuel instantiated. -/
def findallUSD (l : List Char) : List (List Char) :=
  findallUSDAux l.length l

/-- The marker alternation of `re.sub(r'(?:u\$|usd|us|dolar|\$)', '', texto)`;
returns how many characters the leftmost-position match consumes. -/
def marcadorSub? (l : List Char) : Option ℕ :=
  if l.take 2 = [ 'u', '$' ] then some 2
  else if l.take 3 = [ 'u', 's', 'd' ] then some 3
  else if l.take 2 = [ 'u', 's' ] then some 2
  else if l.take 5 = [ 'd', 'o', 'l', 'a', 'r' ] then some 5
  else if l.take 1 = [ '$' ] then some 1
  else none

/-- `re.sub(r'(?:u\$|usd|us|dolar|\$)', '', texto)` as a scan. -/
def subMarcadoresAux : ℕ → List Char → List Char
  | 0, l => l
  | _ + 1, [] => []
  | fuel + 1, c :: rest =>
    match marcadorSub? (c :: rest) with
    | some k => subMarcadoresAux fuel ((c :: rest).drop k)
    | none => c :: subMarcadoresAux fuel rest

/-- `re.sub(r'(?:u\$|usd|us|dolar|\$)', '', texto)` with the fuel instantiated. -/
def subMarcadores (l : List Char) : List Char :=
  subMarcadoresAux l.length l

/-- `re.findall(r'[\d.,]+', texto_limpio)`: maximal runs of `[\d.,]`. -/
def findNumsAux : ℕ → List Char → List (List Char)
  | 0, _ => []
  | _ + 1, [] => []
  | fuel + 1, c :: rest =>
    if esCaracterNum c then
      (c :: rest.takeWhile esCaracterNum) :: findNumsAux fuel (rest.dropWhile esCaracterNum)
    else findNumsAux fuel rest

/-- `re.findall(r'[\d.,]+', texto_limpio)` with the fuel instantiated. -/
def findNums (l : List Char) : List (List Char) :=
  findNumsAux l.length l

/-- One iteration of the dollar loop, on the state `(total_ars, texto)`:
`monto_clean = monto_str.replace(',', '.')`; when the rate is positive,
`total_ars += float(monto_clean) * cotizacion`; then
`texto = texto.replace(monto_str, "", 1)`.  A `float` failure would be caught
by the `except: pass` and skip the replacement (it cannot actually happen for
a `patron_usd` capture). -/
def pasoUSD (cot : ℚ) (st : ℚ × List Char) (m : List Char) : ℚ × List Char :=
  let mClean := comaAPunto m
  if 0 < cot then
    match parseFloat? mClean with
    | some v => (st.1 + v * cot, quitarPrimera st.2 m)
    | none => st
  else (st.1, quitarPrimera st.2 m)

/-- `n_clean` handling of one peso candidate: remove `.`, turn `,` into `.`,
skip the empty and punctuation-only strings, then `float`. -/
def parsePesos? (num : List Char) : Option ℚ :=
  let nClean := comaAPunto (quitarPuntos num)
  if nClean = [] ∨ nClean = [ '.' ] ∨ nClean = [ ',' ] then none
  else parseFloat? nClean

/-- One iteration of the peso loop on the state `(total_ars, fecha_tag)`,
where `L` is `len(posibles_numeros)`: a candidate that fails to parse is
skipped (`continue` / `except: continue`); a sole candidate strictly between
2020 and 2030 only sets the `POSIBLE_FECHA_IGNORADA` flag; any other candidate
is added to the running total. -/
def pasoPesos (L : ℕ) (st : ℚ × Bool) (num : List Char) : ℚ × Bool :=
  match parsePesos? num with
  | none => st
  | some v =>
    if 2020 < v ∧ v < 2030 ∧ L = 1 then (st.1, true)
    else (st.1 + v, st.2)

/-- Assembly of `notas`: `CONVERSION_USD` (appended once, before the loops,
when `coincidencias_usd` is non-empty), then `POSIBLE_FECHA_IGNORADA`, then
`LIMPIEZA_TEXTO` (only when letters remained and `CONVERSION_USD` is not
already present), and `NORMAL` when nothing else was appended. -/
def notasDe (usd fecha letras : Bool) : List String :=
  let n1 : List String := if usd then ["CONVERSION_USD"] else []
  let n2 : List String := n1 ++ (if fecha then ["POSIBLE_FECHA_IGNORADA"] else [])
  let n3 : List String :=
    n2 ++ (if letras = true ∧ ("CONVERSION_USD") ∉ n2 then ["LIMPIEZA_TEXTO"] else [])
  if n3 = [] then ["NORMAL"] else n3

/-- The non-terminal path of `limpiar_celda_dinero_auditado`: dollar pass over
the canonical text, letter detection on the residual text, marker stripping,
peso pass, and tag assembly. -/
def cuerpoLimpiar (texto : List Char) (cot : ℚ) : ℚ × List String :=
  let coincidenciasUSD := findallUSD texto
  let stUSD := coincidenciasUSD.foldl (pasoUSD cot) (0, texto)
  let textoConLetras := stUSD.2.any esLetraAscii
  let textoLimpio := subMarcadores stUSD.2
  let nums := findNums textoLimpio
  let stPesos := nums.foldl (pasoPesos nums.length) (stUSD.1, false)
  (stPesos.1, notasDe (!coincidenciasUSD.isEmpty) stPesos.2 textoConLetras)

/-- `limpiar_celda_dinero_auditado`, before joining the tags: a NaN rate is
replaced by `0.0`; an empty or null-marker text is the terminal `VACIO` case;
otherwise the dollar and peso passes run. -/
def limpiarCeldaAux (valor : List Char) (cotizacion : Option ℚ) : ℚ × List String :=
  let cot := cotizacion.getD 0
  let texto := canonizar valor
  if esTextoNulo texto then (0, ["VACIO"])
  else cuerpoLimpiar texto cot

/-- `limpiar_celda_dinero_auditado`: returns `(monto_ars, " + ".join(notas))`. -/
def limpiar_celda_dinero_auditado (valor : List Char) (cotizacion : Option ℚ) :
    ℚ × String :=
  let p := limpiarCeldaAux valor cotizacion
  (p.1, String.intercalate (" + ") p.2)

/-- The `FiscalBreakdown` value object: net, VAT (IVA), and the two minor
levies (IIBB and SYH). -/
structure FiscalBreakdown where
  neto : ℚ
  iva : ℚ
  iibb : ℚ
  syh : ℚ
  deriving DecidableEq, Repr

/-- `calcular_impuestos`: for a fiscal row (`es_fiscal == 1`) the gross amount
is VAT-inclusive at 21%, with the two levies at 2.9% and 0.3% of the net;
otherwise everything but the net is zero. -/
def calcular_impuestos (monto_bruto : ℚ) (es_fiscal : ℕ) : FiscalBreakdown :=
  if es_fiscal = 1 then
    let neto := monto_bruto / 1.21
    { neto := neto, iva := monto_bruto - neto
      iibb := neto * 0.029, syh := neto * 0.003 }
  else { neto := monto_bruto, iva := 0, iibb := 0, syh := 0 }

/-- The caller's fact-table filter `df_melt[df_melt["monto_ars"] > 0]` of
`main.py`: a row survives exactly when its normalized amount is positive. -/
def filtroMontoPositivo (monto : ℚ) : Bool := decide (0 < monto)

/-! ### Per-match contributions of the two passes -/

/-- The amount one `patron_usd` capture contributes to `total_ars`: its value
(comma read as decimal point) times the rate when the rate is positive, and
nothing otherwise. -/
def contribUSD (cot : ℚ) (m : List Char) : ℚ :=
  if 0 < cot then
    match parseFloat? (comaAPunto m) with
    | some v => v * cot
    | none => 0
  else 0

/-- The effect one dollar capture has on the working text: the first
occurrence of the captured numeral is removed (skipped only on the impossible
`float` failure under a positive rate, where the exception fires first). -/
def pasoResiduo (cot : ℚ) (tx m : List Char) : List Char :=
  if 0 < cot ∧ parseFloat? (comaAPunto m) = none then tx else quitarPrimera tx m

/-- The working text left after the dollar loop removed its captures. -/
def residuoUSD (cot : ℚ) (tx : List Char) (ms : List (List Char)) : List Char :=
  ms.foldl (pasoResiduo cot) tx

/-- The amount one peso candidate contributes to `total_ars`: its parsed value,
except that an unparseable candidate contributes nothing and a sole candidate
strictly between 2020 and 2030 is suppressed by the date heuristic. -/
def contribPesos (L : ℕ) (num : List Char) : ℚ :=
  match parsePesos? num with
  | none => 0
  | some v => if 2020 < v ∧ v < 2030 ∧ L = 1 then 0 else v

/-- The spec's literal reading of the local pass — "each local candidate added
as-is": the sum of the parsed values of all candidates, with no exception for
the date heuristic. -/
def sumaLiteralPesos (nums : List (List Char)) : ℚ :=
  (nums.map (fun num => (parsePesos? num).getD 0)).sum

/-! ### Decomposition of the two accumulation loops -/

lemma pasoUSD_eq (cot : ℚ) (st : ℚ × List Char) (m : List Char) :
    pasoUSD cot st m = (st.1 + contribUSD cot m, pasoResiduo cot st.2 m) := by
  unfold pasoUSD contribUSD pasoResiduo
  by_cases h : 0 < cot
  · cases hp : parseFloat? (comaAPunto m) with
    | some v => simp [h, hp]
    | none => simp [h, hp]
  · simp [h]

lemma foldl_pasoUSD (cot : ℚ) (ms : List (List Char)) (t0 : ℚ) (tx : List Char) :
    ms.foldl (pasoUSD cot) (t0, tx) =
      (t0 + (ms.map (contribUSD cot)).sum, residuoUSD cot tx ms) := by
  induction ms generalizing t0 tx with
  | nil => simp [residuoUSD]
  | cons m rest ih =>
    simp only [List.foldl_cons, pasoUSD_eq, List.map_cons, List.sum_cons]
    rw [ih]
    simp only [residuoUSD, List.foldl_cons]
    ring_nf

lemma pasoPesos_fst (L : ℕ) (st : ℚ × Bool) (num : List Char) :
    (pasoPesos L st num).1 = st.1 + contribPesos L num := by
  unfold pasoPesos contribPesos
  cases hp : parsePesos? num with
  | none => simp
  | some v => by_cases h : 2020 < v ∧ v < 2030 ∧ L = 1 <;> simp [h]

lemma foldl_pasoPesos (L : ℕ) (nums : List (List Char)) (st : ℚ × Bool) :
    (nums.foldl (pasoPesos L) st).1 = st.1 + (nums.map (contribPesos L)).sum := by
  induction nums generalizing st with
  | nil => simp
  | cons num rest ih =>
    simp only [List.foldl_cons, List.map_cons, List.sum_cons]
    rw [ih, pasoPesos_fst]
    ring_nf

/-! ### Evaluation helpers for concrete cells -/

lemma limpiarCeldaAux_no_nulo (valor : List Char) (r : Option ℚ)
    (hv : esTextoNulo (canonizar valor) = false) :
    limpiarCeldaAux valor r = cuerpoLimpiar (canonizar valor) (r.getD 0) := by
  unfold limpiarCeldaAux
  simp [hv]

lemma limpiarCeldaAux_nulo (valor : List Char) (r : Option ℚ)
    (hv : esTextoNulo (canonizar valor) = true) :
    limpiarCeldaAux valor r = (0, ["VACIO"]) := by
  unfold limpiarCeldaAux
  simp [hv]

lemma cuerpoLimpiar_eq (texto : List Char) (cot : ℚ)
    (ms : List (List Char)) (hms : findallUSD texto = ms)
    (stU : ℚ × List Char) (hU : ms.foldl (pasoUSD cot) (0, texto) = stU)
    (letras : Bool) (hl : stU.2.any esLetraAscii = letras)
    (tl : List Char) (htl : subMarcadores stU.2 = tl)
    (nums : List (List Char)) (hn : findNums tl = nums)
    (stP : ℚ × Bool) (hP : nums.foldl (pasoPesos nums.length) (stU.1, false) = stP) :
    cuerpoLimpiar texto cot = (stP.1, notasDe (!ms.isEmpty) stP.2 letras) := by
  unfold cuerpoLimpiar
  rw [hms]
  dsimp only
  rw [hU, hl, htl, hn, hP]

lemma parsePesos?_some (num nc : List Char) (hnc : comaAPunto (quitarPuntos num) = nc)
    (h1 : ¬(nc = [] ∨ nc = [ '.' ] ∨ nc = [ ',' ]))
    (h2 : nc.any Char.isDigit ∧ nc.count ('.') ≤ 1 ∧
      nc.all (fun c => c.isDigit || c == '.')) :
    parsePesos? num = some (floatVal nc) := by
  unfold parsePesos? parseFloat?
  rw [hnc, if_neg h1, if_pos h2]

lemma floatVal_nat (l : List Char) (n : ℕ) (hf : parteFrac l = [])
    (he : digitosVal (parteEntera l) = n) : floatVal l = (n : ℚ) := by
  unfold floatVal
  rw [hf, he]
  norm_num [digitosVal]

lemma pasoPesos_suma (L : ℕ) (st : ℚ × Bool) (num : List Char) (v : ℚ)
    (hv : parsePesos? num = some v) (hno : ¬(2020 < v ∧ v < 2030 ∧ L = 1)) :
    pasoPesos L st num = (st.1 + v, st.2) := by
  unfold pasoPesos
  rw [hv]
  dsimp only
  rw [if_neg hno]

lemma pasoPesos_fecha (L : ℕ) (st : ℚ × Bool) (num : List Char) (v : ℚ)
    (hv : parsePesos? num = some v) (hsi : 2020 < v ∧ v < 2030 ∧ L = 1) :
    pasoPesos L st num = (st.1, true) := by
  unfold pasoPesos
  rw [hv]
  dsimp only
  rw [if_pos hsi]

lemma pasoUSD_sin_tasa (cot : ℚ) (st : ℚ × List Char) (m : List Char)
    (h : ¬ 0 < cot) : pasoUSD cot st m = (st.1, quitarPrimera st.2 m) := by
  unfold pasoUSD
  rw [if_neg h]

/-! ### Shape of the audit-tag list -/

/-- Every result of the normalizer carries either the `VACIO` tag alone or a
tag list assembled by `notasDe`. -/
lemma notas_shape (valor : List Char) (r : Option ℚ) :
    (limpiarCeldaAux valor r).2 = ["VACIO"] ∨
      ∃ u f lt, (limpiarCeldaAux valor r).2 = notasDe u f lt := by
  unfold limpiarCeldaAux cuerpoLimpiar
  dsimp only
  split
  · exact Or.inl rfl
  · exact Or.inr ⟨_, _, _, rfl⟩

lemma notasDe_ne_nil (u f lt : Bool) : notasDe u f lt ≠ [] := by
  revert u f lt
  decide

lemma notasDe_normal (u f lt : Bool)
    (hu : ("CONVERSION_USD") ∉ notasDe u f lt)
    (hf : ("POSIBLE_FECHA_IGNORADA") ∉ notasDe u f lt)
    (hl : ("LIMPIEZA_TEXTO") ∉ notasDe u f lt) :
    notasDe u f lt = ["NORMAL"] := by
  revert hu hf hl
  revert u f lt
  decide

lemma notasDe_count_usd (u f lt : Bool) :
    (notasDe u f lt).count ("CONVERSION_USD") ≤ 1 := by
  revert u f lt
  decide

lemma notasDe_head_usd (u f lt : Bool)
    (h : ("CONVERSION_USD") ∈ notasDe u f lt) :
    (notasDe u f lt).head? = some ("CONVERSION_USD") := by
  revert h
  revert u f lt
  decide

lemma notasDe_usd_mem (f lt : Bool) :
    ("CONVERSION_USD") ∈ notasDe true f lt := by
  revert f lt
  decide

/-! ### C3 — the fiscal decomposer -/

/-- C3: for every non-negative amount `a`, the fiscal branch satisfies
`net = a / 1.21`, `vat = a - net` (hence `net + vat = a` exactly),
`levy_a = net * 0.029` and `levy_b = net * 0.003`; the non-fiscal branch
returns `(a, 0, 0, 0)`. -/
theorem c3_descomposicion_fiscal (a : ℚ) (h : 0 ≤ a) :
    (calcular_impuestos a 1).neto = a / 1.21 ∧
    (calcular_impuestos a 1).iva = a - a / 1.21 ∧
    (calcular_impuestos a 1).neto + (calcular_impuestos a 1).iva = a ∧
    (calcular_impuestos a 1).iibb = (calcular_impuestos a 1).neto * 0.029 ∧
    (calcular_impuestos a 1).syh = (calcular_impuestos a 1).neto * 0.003 ∧
    calcular_impuestos a 0 = ⟨a, 0, 0, 0⟩ := by
  unfold calcular_impuestos
  norm_num

/-- Witness for C3 at `a = 121`. -/
theorem c3_descomposicion_fiscal_witness :
    (0 : ℚ) ≤ 121 ∧
      (calcular_impuestos 121 1).neto + (calcular_impuestos 121 1).iva = 121 :=
  ⟨by norm_num, (c3_descomposicion_fiscal 121 (by norm_num)).2.2.1⟩

/-! ### C4 — the terminal empty/null case -/

/-- C4: for every rate, an input whose lower-cased and trimmed form is empty,
`"nan"` or `"none"` makes the normalizer return amount `0` with the single tag
`VACIO`, both before and after joining the tags. -/
theorem c4_celda_vacia (valor : List Char) (r : Option ℚ)
    (h : canonizar valor = [] ∨ canonizar valor = ("nan").data ∨
      canonizar valor = ("none").data) :
    limpiarCeldaAux valor r = (0, ["VACIO"]) ∧
    limpiar_celda_dinero_auditado valor r = (0, ("VACIO")) := by
  have hv : esTextoNulo (canonizar valor) = true := by
    rcases h with h | h | h <;> rw [h] <;> decide
  have h1 := limpiarCeldaAux_nulo valor r hv
  refine ⟨h1, ?_⟩
  unfold limpiar_celda_dinero_auditado
  rw [h1]
  rfl

/-- Witness for C4 at the cell `" NaN "` with a missing rate. -/
theorem c4_celda_vacia_witness :
    limpiarCeldaAux ((" NaN ").data) none = (0, ["VACIO"]) :=
  (c4_celda_vacia ((" NaN ").data) none (Or.inr (Or.inl (by decide)))).1

/-! ### C6 — the audit trail is never empty -/

/-- C6: the tag list is never empty; when none of the anomaly tags `VACIO`,
`CONVERSION_USD`, `POSIBLE_FECHA_IGNORADA`, `LIMPIEZA_TEXTO` was appended it is
exactly `[NORMAL]`; and the stored string is the tags joined with `" + "`. -/
theorem c6_notas_nunca_vacias (valor : List Char) (r : Option ℚ) :
    (limpiarCeldaAux valor r).2 ≠ [] ∧
    (("VACIO") ∉ (limpiarCeldaAux valor r).2 →
      ("CONVERSION_USD") ∉ (limpiarCeldaAux valor r).2 →
      ("POSIBLE_FECHA_IGNORADA") ∉ (limpiarCeldaAux valor r).2 →
      ("LIMPIEZA_TEXTO") ∉ (limpiarCeldaAux valor r).2 →
      (limpiarCeldaAux valor r).2 = ["NORMAL"]) ∧
    (limpiar_celda_dinero_auditado valor r).2 =
      String.intercalate (" + ") (limpiarCeldaAux valor r).2 := by
  refine ⟨?_, ?_, rfl⟩
  · rcases notas_shape valor r with h | ⟨u, f, lt, h⟩ <;> rw [h]
    · decide
    · exact notasDe_ne_nil u f lt
  · intro hV hU hF hL
    rcases notas_shape valor r with h | ⟨u, f, lt, h⟩
    · rw [h] at hV
      exact absurd (List.mem_singleton_self _) hV
    · rw [h] at hU hF hL ⊢
      exact notasDe_normal u f lt hU hF hL

/-- Witness for C6 at the cell `"5"` with rate 2. -/
theorem c6_notas_nunca_vacias_witness :
    (limpiarCeldaAux (("5").data) (some 2)).2 = ["NORMAL"] :=
  (c6_notas_nunca_vacias (("5").data) (some 2)).2.1
    (by with_unfolding_all decide) (by with_unfolding_all decide)
    (by with_unfolding_all decide) (by with_unfolding_all decide)

/-! ### C8 — the USD tag is first and appended at most once -/

/-- C8: `CONVERSION_USD` occurs at most once in a cell's trail, and whenever it
occurs it is the head of the trail, hence precedes any `LIMPIEZA_TEXTO` or
`POSIBLE_FECHA_IGNORADA` tag of the same cell (the trail itself is produced by
a pure function of the cell, so it is deterministic). -/
theorem c8_conversion_usd_primera (valor : List Char) (r : Option ℚ) :
    ((limpiarCeldaAux valor r).2.count ("CONVERSION_USD") ≤ 1) ∧
    (("CONVERSION_USD") ∈ (limpiarCeldaAux valor r).2 →
      (limpiarCeldaAux valor r).2.head? = some ("CONVERSION_USD")) := by
  rcases notas_shape valor r with h | ⟨u, f, lt, h⟩ <;> rw [h]
  · exact ⟨by decide, by decide⟩
  · exact ⟨notasDe_count_usd u f lt, notasDe_head_usd u f lt⟩

/-- Witness for C8 at the cell `"3u$"` with a missing rate. -/
theorem c8_conversion_usd_primera_witness :
    (limpiarCeldaAux (("3u$").data) none).2.head? = some ("CONVERSION_USD") :=
  (c8_conversion_usd_primera (("3u$").data) none).2 (by with_unfolding_all decide)

/-! ### The amount is the sum of the per-match contributions -/

lemma esTextoNulo_eq (t : List Char) (h : esTextoNulo t = true) :
    t = [] ∨ t = ("nan").data ∨ t = ("none").data := by
  unfold esTextoNulo at h
  have h2 := h
  simp [List.isEmpty_iff] at h2
  tauto

/-- The normalized amount decomposes as the converted dollar contributions plus
the peso contributions taken from the residual text. -/
lemma monto_eq_suma (valor : List Char) (r : Option ℚ) :
    (limpiarCeldaAux valor r).1 =
      ((findallUSD (canonizar valor)).map (contribUSD (r.getD 0))).sum +
      ((findNums (subMarcadores
          (residuoUSD (r.getD 0) (canonizar valor) (findallUSD (canonizar valor))))).map
        (contribPesos (findNums (subMarcadores
          (residuoUSD (r.getD 0) (canonizar valor)
            (findallUSD (canonizar valor))))).length)).sum := by
  by_cases hv : esTextoNulo (canonizar valor) = true
  · rw [limpiarCeldaAux_nulo valor r hv]
    rcases esTextoNulo_eq _ hv with h | h | h <;> rw [h]
    · simp [findallUSD, findallUSDAux, residuoUSD, subMarcadores, subMarcadoresAux,
        findNums, findNumsAux]
    · have h1 : findallUSD (("nan").data) = [] := by decide
      have h2 : findNums (subMarcadores (("nan").data)) = [] := by decide
      rw [h1]
      simp [residuoUSD, h2]
    · have h1 : findallUSD (("none").data) = [] := by decide
      have h2 : findNums (subMarcadores (("none").data)) = [] := by decide
      rw [h1]
      simp [residuoUSD, h2]
  · rw [limpiarCeldaAux_no_nulo valor r (by simpa using hv)]
    unfold cuerpoLimpiar
    dsimp only
    rw [foldl_pasoUSD]
    dsimp only
    rw [foldl_pasoPesos]
    ring

/-! ### C9 — the amount is never negative -/

lemma parseFloat?_nonneg (l : List Char) (v : ℚ) (h : parseFloat? l = some v) :
    0 ≤ v := by
  unfold parseFloat? at h
  split at h
  · cases h
    unfold floatVal
    positivity
  · cases h

lemma contribUSD_nonneg (cot : ℚ) (m : List Char) (hc : 0 ≤ cot) :
    0 ≤ contribUSD cot m := by
  unfold contribUSD
  split
  · cases hp : parseFloat? (comaAPunto m) with
    | none => simp
    | some v => simpa using mul_nonneg (parseFloat?_nonneg _ _ hp) hc
  · exact le_refl 0

lemma contribPesos_nonneg (L : ℕ) (num : List Char) : 0 ≤ contribPesos L num := by
  unfold contribPesos
  cases hp : parsePesos? num with
  | none => exact le_refl 0
  | some v =>
    dsimp only
    split
    · exact le_refl 0
    · unfold parsePesos? at hp
      dsimp only at hp
      split at hp
      · cases hp
      · exact parseFloat?_nonneg _ _ hp

/-- C9: for every input text and every non-negative (or missing) exchange rate
the normalized amount is non-negative: only non-negative contributions are
ever accumulated. -/
theorem c9_monto_no_negativo (valor : List Char) (r : Option ℚ)
    (h : 0 ≤ r.getD 0) : 0 ≤ (limpiarCeldaAux valor r).1 := by
  rw [monto_eq_suma]
  refine add_nonneg (List.sum_nonneg ?_) (List.sum_nonneg ?_) <;>
    intro x hx <;> rw [List.mem_map] at hx <;> obtain ⟨m, -, rfl⟩ := hx
  · exact contribUSD_nonneg _ m h
  · exact contribPesos_nonneg _ m

/-- Witness for C9 at the cell `"5"` with rate 2. -/
theorem c9_monto_no_negativo_witness :
    (0 : ℚ) ≤ (Option.getD (some 2) 0) ∧
      0 ≤ (limpiarCeldaAux (("5").data) (some 2)).1 :=
  ⟨by norm_num, c9_monto_no_negativo (("5").data) (some 2) (by norm_num)⟩

/-! ### Concrete evaluations of the normalizer -/

lemma limpiar_eval_total (valor : List Char) (r : Option ℚ) (texto : List Char)
    (hc : canonizar valor = texto) (hnulo : esTextoNulo texto = false)
    (ms : List (List Char)) (hms : findallUSD texto = ms)
    (stU : ℚ × List Char) (hU : ms.foldl (pasoUSD (r.getD 0)) (0, texto) = stU)
    (letras : Bool) (hl : stU.2.any esLetraAscii = letras)
    (tl : List Char) (htl : subMarcadores stU.2 = tl)
    (nums : List (List Char)) (hn : findNums tl = nums)
    (stP : ℚ × Bool) (hP : nums.foldl (pasoPesos nums.length) (stU.1, false) = stP) :
    limpiarCeldaAux valor r = (stP.1, notasDe (!ms.isEmpty) stP.2 letras) := by
  rw [show limpiarCeldaAux valor r = cuerpoLimpiar texto (r.getD 0) by
    rw [← hc] at hnulo ⊢
    exact limpiarCeldaAux_no_nulo valor r hnulo]
  exact cuerpoLimpiar_eq _ _ ms hms stU hU letras hl tl htl nums hn stP hP

lemma parsePesos?_nat (num : List Char) (n : ℕ)
    (h1 : comaAPunto (quitarPuntos num) = num)
    (h2 : ¬(num = [] ∨ num = [ '.' ] ∨ num = [ ',' ]))
    (h3 : num.any Char.isDigit ∧ num.count ('.') ≤ 1 ∧
      num.all (fun c => c.isDigit || c == '.'))
    (h4 : parteFrac num = []) (h5 : digitosVal (parteEntera num) = n) :
    parsePesos? num = some ((n : ℕ) : ℚ) := by
  rw [parsePesos?_some num num h1 h2 h3, floatVal_nat num n h4 h5]

lemma parse_2025 : parsePesos? (("2025").data) = some ((2025 : ℕ) : ℚ) :=
  parsePesos?_nat _ 2025 (by decide) (by decide) (by decide) (by decide) (by decide)

lemma parse_500 : parsePesos? (("500").data) = some ((500 : ℕ) : ℚ) :=
  parsePesos?_nat _ 500 (by decide) (by decide) (by decide) (by decide) (by decide)

lemma parse_0 : parsePesos? (("0").data) = some ((0 : ℕ) : ℚ) :=
  parsePesos?_nat _ 0 (by decide) (by decide) (by decide) (by decide) (by decide)

/-- `normalize("2025", 1000)`: a sole candidate in the year range is
suppressed. -/
lemma eval_anio_solo :
    limpiarCeldaAux (("2025").data) (some 1000) = (0, ["POSIBLE_FECHA_IGNORADA"]) := by
  have hP : [ (("2025").data) ].foldl (pasoPesos 1) ((0 : ℚ), false) = (0, true) := by
    rw [List.foldl_cons, pasoPesos_fecha 1 (0, false) _ _ parse_2025
      (by norm_num), List.foldl_nil]
  have h := limpiar_eval_total (("2025").data) (some 1000) (("2025").data)
    (by decide) (by decide) [] (by decide) (0, (("2025").data)) (by decide)
    false (by decide) (("2025").data) (by decide) [ (("2025").data) ] (by decide)
    (0, true) hP
  rw [h]
  decide

/-- `normalize("2025 500", 1000)`: two candidates, so the year heuristic is
suppressed and both are added. -/
lemma eval_anio_y_monto :
    limpiarCeldaAux (("2025 500").data) (some 1000) = (2525, ["NORMAL"]) := by
  have hP : [ (("2025").data), (("500").data) ].foldl (pasoPesos 2) ((0 : ℚ), false)
      = ((0 : ℚ) + (2025 : ℕ) + (500 : ℕ), false) := by
    rw [List.foldl_cons, pasoPesos_suma 2 _ _ _ parse_2025 (by norm_num),
      List.foldl_cons, pasoPesos_suma 2 _ _ _ parse_500 (by norm_num),
      List.foldl_nil]
  have h := limpiar_eval_total (("2025 500").data) (some 1000) (("2025 500").data)
    (by decide) (by decide) [] (by decide) (0, (("2025 500").data)) (by decide)
    false (by decide) (("2025 500").data) (by decide)
    [ (("2025").data), (("500").data) ] (by decide)
    ((0 : ℚ) + (2025 : ℕ) + (500 : ℕ), false) hP
  rw [h]
  norm_num [notasDe]

/-- `normalize("2025 0", 1000)`: the amount is 2025 because a second candidate
suppresses the year heuristic. -/
lemma eval_anio_y_cero :
    limpiarCeldaAux (("2025 0").data) (some 1000) = (2025, ["NORMAL"]) := by
  have hP : [ (("2025").data), (("0").data) ].foldl (pasoPesos 2) ((0 : ℚ), false)
      = ((0 : ℚ) + (2025 : ℕ) + (0 : ℕ), false) := by
    rw [List.foldl_cons, pasoPesos_suma 2 _ _ _ parse_2025 (by norm_num),
      List.foldl_cons, pasoPesos_suma 2 _ _ _ parse_0 (by norm_num),
      List.foldl_nil]
  have h := limpiar_eval_total (("2025 0").data) (some 1000) (("2025 0").data)
    (by decide) (by decide) [] (by decide) (0, (("2025 0").data)) (by decide)
    false (by decide) (("2025 0").data) (by decide)
    [ (("2025").data), (("0").data) ] (by decide)
    ((0 : ℚ) + (2025 : ℕ) + (0 : ℕ), false) hP
  rw [h]
  norm_num [notasDe]

/-- `normalize("10u$", NaN)`: the dollar match is tagged but contributes
nothing under a missing rate. -/
lemma eval_usd_sin_tasa :
    limpiarCeldaAux (("10u$").data) none = (0, ["CONVERSION_USD"]) := by
  have hU : [ (("10").data) ].foldl (pasoUSD ((none : Option ℚ).getD 0))
      ((0 : ℚ), (("10u$").data)) = (0, ("u$").data) := by
    rw [List.foldl_cons, pasoUSD_sin_tasa _ _ _ (by norm_num), List.foldl_nil]
    decide
  have h := limpiar_eval_total (("10u$").data) none (("10u$").data)
    (by decide) (by decide) [ (("10").data) ] (by decide) (0, ("u$").data) hU
    true (by decide) [] (by decide) [] (by decide) (0, false) (by decide)
  rw [h]
  decide

/-! ### C5 — the date-confusion heuristic -/

/-- C5: a candidate strictly between 2020 and 2030 is suppressed (and flagged)
exactly when it is the only candidate of the local pass; with two or more
candidates every candidate is added.  Concretely,
`normalize("2025", 1000) = (0, [POSIBLE_FECHA_IGNORADA])` and
`normalize("2025 500", 1000) = (2525, [NORMAL])`. -/
theorem c5_heuristica_anio (nums : List (List Char)) (num : List Char) (v : ℚ)
    (st : ℚ × Bool) (_hmem : num ∈ nums) (hp : parsePesos? num = some v)
    (h1 : 2020 < v) (h2 : v < 2030) :
    (nums.length = 1 → pasoPesos nums.length st num = (st.1, true)) ∧
    (nums.length ≠ 1 → pasoPesos nums.length st num = (st.1 + v, st.2)) ∧
    limpiarCeldaAux (("2025").data) (some 1000) = (0, ["POSIBLE_FECHA_IGNORADA"]) ∧
    limpiarCeldaAux (("2025 500").data) (some 1000) = (2525, ["NORMAL"]) := by
  refine ⟨?_, ?_, eval_anio_solo, eval_anio_y_monto⟩
  · intro hL
    exact pasoPesos_fecha _ _ _ _ hp ⟨h1, h2, hL⟩
  · intro hL
    exact pasoPesos_suma _ _ _ _ hp (by tauto)

/-- Witness for C5: the sole candidate `"2025"` is suppressed. -/
theorem c5_heuristica_anio_witness :
    pasoPesos 1 ((0 : ℚ), false) (("2025").data) = (0, true) :=
  (c5_heuristica_anio [ (("2025").data) ] (("2025").data) ((2025 : ℕ) : ℚ)
    ((0 : ℚ), false) (by decide) parse_2025 (by norm_num) (by norm_num)).1 rfl

/-! ### C10 — dollar matches under a missing or non-positive rate -/

/-- C10: when the text has a dollar match but the rate is missing or
non-positive, the `CONVERSION_USD` tag is still appended while every dollar
contribution is zero; concretely `normalize("10u$", NaN) = (0, [CONVERSION_USD])`,
and the caller's filter rejects the zero amount. -/
theorem c10_usd_sin_cotizacion (valor : List Char) (r : Option ℚ)
    (hm : findallUSD (canonizar valor) ≠ []) (hr : r.getD 0 ≤ 0) :
    ("CONVERSION_USD") ∈ (limpiarCeldaAux valor r).2 ∧
    ((findallUSD (canonizar valor)).map (contribUSD (r.getD 0))).sum = 0 ∧
    limpiarCeldaAux (("10u$").data) none = (0, ["CONVERSION_USD"]) ∧
    filtroMontoPositivo 0 = false := by
  refine ⟨?_, ?_, eval_usd_sin_tasa, by decide⟩
  · have hnulo : esTextoNulo (canonizar valor) = false := by
      by_contra hcon
      rw [Bool.not_eq_false] at hcon
      rcases esTextoNulo_eq _ hcon with h | h | h <;> rw [h] at hm <;>
        exact hm (by decide)
    rw [limpiarCeldaAux_no_nulo valor r hnulo]
    unfold cuerpoLimpiar
    dsimp only
    have he : (!((findallUSD (canonizar valor)).isEmpty)) = true := by
      simp [List.isEmpty_iff, hm]
    rw [he]
    exact notasDe_usd_mem _ _
  · apply List.sum_eq_zero
    intro x hx
    rw [List.mem_map] at hx
    obtain ⟨m, -, rfl⟩ := hx
    unfold contribUSD
    rw [if_neg (not_lt.mpr hr)]

/-- Witness for C10 at the cell `"10u$"` with a missing rate. -/
theorem c10_usd_sin_cotizacion_witness :
    ("CONVERSION_USD") ∈ (limpiarCeldaAux (("10u$").data) none).2 :=
  (c10_usd_sin_cotizacion (("10u$").data) none (by decide) (by norm_num)).1

/-! ### C7 — no exception escapes either component

The `try/except` blocks of the source are modelled in `Except`: `float` raises
`ValueError` on an unparseable string, the loop bodies catch every exception
(`pass` / `continue`), and Python division raises `ZeroDivisionError` only on a
zero divisor.  The theorem states that both components always return `ok`. -/

/-- `float(s)` with its failure made explicit. -/
def floatE (l : List Char) : Except String ℚ :=
  match parseFloat? l with
  | some v => Except.ok v
  | none => Except.error ("ValueError")

/-- The dollar-loop body with the `try` block in `Except`; the trailing match
is the `except Exception: pass`, which keeps the state of the iteration. -/
def pasoUSDE (cot : ℚ) (st : ℚ × List Char) (m : List Char) : ℚ × List Char :=
  match (if 0 < cot then
      match floatE (comaAPunto m) with
      | Except.ok v => Except.ok (st.1 + v * cot, quitarPrimera st.2 m)
      | Except.error e => Except.error e
    else (Except.ok (st.1, quitarPrimera st.2 m) : Except String (ℚ × List Char))) with
  | Except.ok s => s
  | Except.error _ => st

/-- The peso-loop body with the `try` block in `Except`; the trailing match is
the `except Exception: continue`. -/
def pasoPesosE (L : ℕ) (st : ℚ × Bool) (num : List Char) : ℚ × Bool :=
  match (
    let nClean := comaAPunto (quitarPuntos num)
    if nClean = [] ∨ nClean = [ '.' ] ∨ nClean = [ ',' ] then Except.ok st
    else
      match floatE nClean with
      | Except.ok v =>
        Except.ok (if 2020 < v ∧ v < 2030 ∧ L = 1 then (st.1, true) else (st.1 + v, st.2))
      | Except.error e => (Except.error e : Except String (ℚ × Bool))) with
  | Except.ok s => s
  | Except.error _ => st

/-- The non-terminal path of the normalizer with exceptions modelled: since
both loop bodies catch internally, the body as a whole returns `ok`. -/
def cuerpoLimpiarE (texto : List Char) (cot : ℚ) : Except String (ℚ × List String) :=
  let coincidenciasUSD := findallUSD texto
  let stUSD := coincidenciasUSD.foldl (pasoUSDE cot) (0, texto)
  let textoConLetras := stUSD.2.any esLetraAscii
  let textoLimpio := subMarcadores stUSD.2
  let nums := findNums textoLimpio
  let stPesos := nums.foldl (pasoPesosE nums.length) (stUSD.1, false)
  Except.ok (stPesos.1, notasDe (!coincidenciasUSD.isEmpty) stPesos.2 textoConLetras)

/-- The normalizer with exceptions modelled. -/
def limpiarCeldaE (valor : List Char) (cotizacion : Option ℚ) :
    Except String (ℚ × List String) :=
  let cot := cotizacion.getD 0
  let texto := canonizar valor
  if esTextoNulo texto then Except.ok (0, ["VACIO"])
  else cuerpoLimpiarE texto cot

/-- Python `/` with its failure made explicit. -/
def divE (a b : ℚ) : Except String ℚ :=
  if b = 0 then Except.error ("ZeroDivisionError") else Except.ok (a / b)

/-- `calcular_impuestos` with its only partial operation (`/ 1.21`) made
explicit. -/
def calcularImpuestosE (monto_bruto : ℚ) (es_fiscal : ℕ) :
    Except String FiscalBreakdown :=
  if es_fiscal = 1 then
    match divE monto_bruto 1.21 with
    | Except.ok neto =>
      Except.ok { neto := neto, iva := monto_bruto - neto
                  iibb := neto * 0.029, syh := neto * 0.003 }
    | Except.error e => Except.error e
  else Except.ok { neto := monto_bruto, iva := 0, iibb := 0, syh := 0 }

lemma pasoUSDE_eq (cot : ℚ) (st : ℚ × List Char) (m : List Char) :
    pasoUSDE cot st m = pasoUSD cot st m := by
  unfold pasoUSDE pasoUSD floatE
  by_cases h : 0 < cot
  · cases hp : parseFloat? (comaAPunto m) <;> simp [h, hp]
  · simp [h]

lemma pasoPesosE_eq (L : ℕ) (st : ℚ × Bool) (num : List Char) :
    pasoPesosE L st num = pasoPesos L st num := by
  unfold pasoPesosE pasoPesos parsePesos?
  dsimp only
  by_cases hg : comaAPunto (quitarPuntos num) = [] ∨
      comaAPunto (quitarPuntos num) = [ '.' ] ∨ comaAPunto (quitarPuntos num) = [ ',' ]
  · simp [hg]
  · rw [if_neg hg, if_neg hg]
    unfold floatE
    cases hp : parseFloat? (comaAPunto (quitarPuntos num)) <;> simp [hp]

lemma cuerpoLimpiarE_eq (texto : List Char) (cot : ℚ) :
    cuerpoLimpiarE texto cot = Except.ok (cuerpoLimpiar texto cot) := by
  unfold cuerpoLimpiarE cuerpoLimpiar
  rw [show pasoUSDE cot = pasoUSD cot from funext fun st => funext fun m =>
    pasoUSDE_eq cot st m]
  simp only [show ∀ L, pasoPesosE L = pasoPesos L from fun L =>
    funext fun st => funext fun num => pasoPesosE_eq L st num]

/-- C7: no exception escapes the normalizer or the decomposer — the
exception-aware models always return `ok` with the pure result; an unparseable
peso candidate is skipped and contributes nothing; a missing (NaN) rate is
handled as rate 0; and a non-positive rate makes every dollar contribution
zero instead of failing. -/
theorem c7_sin_excepciones :
    (∀ (valor : List Char) (r : Option ℚ),
      limpiarCeldaE valor r = Except.ok (limpiarCeldaAux valor r)) ∧
    (∀ (a : ℚ) (f : ℕ),
      calcularImpuestosE a f = Except.ok (calcular_impuestos a f)) ∧
    (∀ (L : ℕ) (st : ℚ × Bool) (num : List Char),
      parsePesos? num = none → pasoPesos L st num = st) ∧
    (∀ valor : List Char,
      limpiarCeldaAux valor none = limpiarCeldaAux valor (some 0)) ∧
    (∀ (cot : ℚ) (m : List Char), cot ≤ 0 → contribUSD cot m = 0) := by
  refine ⟨?_, ?_, ?_, fun valor => rfl, ?_⟩
  · intro valor r
    unfold limpiarCeldaE limpiarCeldaAux
    dsimp only
    split
    · rfl
    · exact cuerpoLimpiarE_eq _ _
  · intro a f
    unfold calcularImpuestosE calcular_impuestos divE
    by_cases h : f = 1
    · rw [if_pos h, if_pos h, if_neg (by norm_num)]
    · rw [if_neg h, if_neg h]
  · intro L st num h
    unfold pasoPesos
    rw [h]
  · intro cot m h
    unfold contribUSD
    rw [if_neg (not_lt.mpr h)]

/-- Witness for C7: the malformed candidate `",,"` is skipped, and a zero rate
yields a zero dollar contribution. -/
theorem c7_sin_excepciones_witness :
    pasoPesos 2 ((5 : ℚ), false) ((",,").data) = ((5 : ℚ), false) ∧
    contribUSD 0 (("10").data) = 0 :=
  ⟨c7_sin_excepciones.2.2.1 2 ((5 : ℚ), false) ((",,").data) (by decide),
   c7_sin_excepciones.2.2.2.2 0 (("10").data) (le_refl 0)⟩

/-! ### C1 — the amount as a sum of contributions -/

/-- C1 as literally stated is false: for the cell `"2025"` the normalizer
returns 0 while the sole local candidate parses to 2025 and there is no dollar
contribution, so the amount is not the sum of all candidates "added as-is". -/
theorem c1_suma_contribuciones_contraejemplo :
    findallUSD (canonizar (("2025").data)) = [] ∧
    findNums (subMarcadores (canonizar (("2025").data))) = [ (("2025").data) ] ∧
    sumaLiteralPesos [ (("2025").data) ] = 2025 ∧
    (limpiarCeldaAux (("2025").data) (some 1000)).1 = 0 ∧
    (0 : ℚ) ≠ 2025 := by
  refine ⟨by decide, by decide, ?_, by rw [eval_anio_solo], by norm_num⟩
  unfold sumaLiteralPesos
  rw [List.map_cons, List.map_nil, parse_2025]
  norm_num

/-- C1, amended: the returned amount is the sum of the per-match
contributions — every dollar capture contributes its value times the rate when
the rate is positive (and nothing otherwise), and every local candidate of the
residual text (dollar numerals removed by first occurrence) contributes its
parsed value, except that unparseable candidates are skipped and a sole
candidate strictly between 2020 and 2030 is suppressed by the date
heuristic. -/
theorem c1_suma_contribuciones (valor : List Char) (r : Option ℚ) :
    (limpiarCeldaAux valor r).1 =
      ((findallUSD (canonizar valor)).map (contribUSD (r.getD 0))).sum +
      ((findNums (subMarcadores
          (residuoUSD (r.getD 0) (canonizar valor) (findallUSD (canonizar valor))))).map
        (contribPesos (findNums (subMarcadores
          (residuoUSD (r.getD 0) (canonizar valor)
            (findallUSD (canonizar valor))))).length)).sum :=
  monto_eq_suma valor r

/-! ### C2 — formatting an amount back to text

The repository contains no formatter; the round-trip property of the spec
needs one, so it is modelled here from the spec for exact decimal amounts
`n / 10^k`. -/

/-- The decimal digit character of `d` (`d ≥ 9` gives `'9'`; only `d ≤ 9` is
ever used). -/
def digitChar (d : ℕ) : Char :=
  if d = 0 then '0' else if d = 1 then '1' else if d = 2 then '2'
  else if d = 3 then '3' else if d = 4 then '4' else if d = 5 then '5'
  else if d = 6 then '6' else if d = 7 then '7' else if d = 8 then '8' else '9'

/-- Decimal digit string of `n`, most significant digit first; `fuel` bounds
the number of digits processed (any `fuel` with `n < 10 ^ fuel` is enough). -/
def natCharsAux : ℕ → ℕ → List Char
  | 0, _ => []
  | fuel + 1, n =>
    if n < 10 then [digitChar n]
    else natCharsAux fuel (n / 10) ++ [digitChar (n % 10)]

/-- Decimal digit string of `n`. -/
def natChars (n : ℕ) : List Char := natCharsAux (n + 1) n

/-- Left-pad a digit string with zeros up to length `k`. -/
def padIzq (k : ℕ) (l : List Char) : List Char :=
  List.replicate (k - l.length) ('0') ++ l

/-- Modelled from the spec: the spec's round-trip property formats a numeric
amount "back to text with no currency marker", but the repository contains no
formatter, so one is modelled here for the exact decimal amount `n / 10^k`,
using the cell convention the parser itself expects: comma as the decimal
separator and no thousands separators. -/
def formatDec (n k : ℕ) : List Char :=
  if k = 0 then natChars n
  else natChars (n / 10 ^ k) ++ ',' :: padIzq k (natChars (n % 10 ^ k))

/-- A digit character as produced by `digitChar`: a digit, fixed by
lower-casing, no whitespace, no letter, none of the marker characters, and
neither separator. -/
def charDigitoOk (c : Char) : Bool :=
  c.isDigit && (Char.toLower c == c) && !esEspacioPy c && !esLetraAscii c &&
    c != 'u' && c != 'd' && c != '$' && c != ',' && c != '.'

/-- A character of a formatted amount: a digit or the decimal comma. -/
def charFormatoOk (c : Char) : Bool :=
  charDigitoOk c || c == ','

lemma digitChar_ok (d : ℕ) : charDigitoOk (digitChar d) = true := by
  unfold digitChar
  repeat' split
  all_goals decide

lemma digitChar_toNat (d : ℕ) (h : d < 10) : (digitChar d).toNat - 48 = d := by
  unfold digitChar
  repeat' split
  all_goals first
    | (subst_vars ; decide)
    | (have h9 : d = 9 := by omega
       subst h9
       decide)

lemma charDigitoOk_props (c : Char) (h : charDigitoOk c = true) :
    c.isDigit = true ∧ Char.toLower c = c ∧ esEspacioPy c = false ∧
    esLetraAscii c = false ∧ c ≠ 'u' ∧ c ≠ 'd' ∧ c ≠ '$' ∧ c ≠ ',' ∧ c ≠ '.' := by
  unfold charDigitoOk at h
  simp only [Bool.and_eq_true, beq_iff_eq, bne_iff_ne, Bool.not_eq_true'] at h
  tauto

lemma charFormatoOk_props (c : Char) (h : charFormatoOk c = true) :
    Char.toLower c = c ∧ esEspacioPy c = false ∧ esLetraAscii c = false ∧
    c ≠ 'u' ∧ c ≠ 'd' ∧ c ≠ '$' ∧ esCaracterNum c = true ∧ c ≠ '.' := by
  unfold charFormatoOk at h
  simp only [Bool.or_eq_true, beq_iff_eq] at h
  rcases h with h | h
  · obtain ⟨h1, h2, h3, h4, h5, h6, h7, -, h9⟩ := charDigitoOk_props c h
    refine ⟨h2, h3, h4, h5, h6, h7, ?_, h9⟩
    unfold esCaracterNum
    simp [h1]
  · subst h
    refine ⟨by decide, by decide, by decide, by decide, by decide, by decide,
      by decide, by decide⟩

lemma natCharsAux_mem (fuel : ℕ) :
    ∀ (n : ℕ) (c : Char), c ∈ natCharsAux fuel n → charDigitoOk c = true := by
  induction fuel with
  | zero =>
    intro n c hc
    simp [natCharsAux] at hc
  | succ fuel ih =>
    intro n c hc
    unfold natCharsAux at hc
    split at hc
    · rw [List.mem_singleton] at hc
      subst hc
      exact digitChar_ok n
    · rw [List.mem_append] at hc
      rcases hc with hc | hc
      · exact ih _ c hc
      · rw [List.mem_singleton] at hc
        subst hc
        exact digitChar_ok _

lemma natChars_mem (n : ℕ) (c : Char) (hc : c ∈ natChars n) :
    charDigitoOk c = true :=
  natCharsAux_mem _ _ c hc

lemma natCharsAux_ne_nil (fuel n : ℕ) (h : 1 ≤ fuel) :
    natCharsAux fuel n ≠ [] := by
  cases fuel with
  | zero => omega
  | succ fuel =>
    unfold natCharsAux
    split
    · simp
    · simp

lemma natChars_ne_nil (n : ℕ) : natChars n ≠ [] :=
  natCharsAux_ne_nil _ _ (by omega)

lemma digitosVal_desde (a : ℕ) (l : List Char) :
    l.foldl (fun a c => 10 * a + (c.toNat - 48)) a =
      a * 10 ^ l.length + digitosVal l := by
  induction l generalizing a with
  | nil => simp [digitosVal]
  | cons c rest ih =>
    unfold digitosVal
    rw [List.foldl_cons, List.foldl_cons, ih, ih (10 * 0 + (c.toNat - 48))]
    rw [List.length_cons, pow_succ]
    ring

lemma digitosVal_natCharsAux (fuel : ℕ) :
    ∀ n : ℕ, n < 10 ^ fuel → digitosVal (natCharsAux fuel n) = n := by
  induction fuel with
  | zero =>
    intro n h
    simp at h
    subst h
    rfl
  | succ fuel ih =>
    intro n h
    unfold natCharsAux
    split
    · unfold digitosVal
      rw [List.foldl_cons, List.foldl_nil]
      have := digitChar_toNat n (by assumption)
      omega
    · unfold digitosVal
      rw [List.foldl_append]
      have hdiv : n / 10 < 10 ^ fuel := by
        rw [Nat.div_lt_iff_lt_mul (by norm_num)]
        rw [← pow_succ]
        exact h
      have h1 : (natCharsAux fuel (n / 10)).foldl
          (fun a c => 10 * a + (c.toNat - 48)) 0 = n / 10 := ih _ hdiv
      rw [show ((0 : ℕ)) = (0 : ℕ) from rfl, h1]
      rw [List.foldl_cons, List.foldl_nil]
      have := digitChar_toNat (n % 10) (Nat.mod_lt _ (by norm_num))
      omega

lemma digitosVal_natChars (n : ℕ) : digitosVal (natChars n) = n := by
  unfold natChars
  refine digitosVal_natCharsAux _ n ?_
  calc n < 10 ^ n := Nat.lt_pow_self (by norm_num) n
    _ ≤ 10 ^ (n + 1) := Nat.pow_le_pow_right (by norm_num) (Nat.le_succ n)

lemma natCharsAux_indep (f1 : ℕ) :
    ∀ (f2 n : ℕ), 1 ≤ f1 → 1 ≤ f2 → n < 10 ^ f1 → n < 10 ^ f2 →
      natCharsAux f1 n = natCharsAux f2 n := by
  induction f1 with
  | zero => omega
  | succ f1 ih =>
    intro f2 n _ h2 hn1 hn2
    cases f2 with
    | zero => omega
    | succ f2 =>
      unfold natCharsAux
      by_cases hn : n < 10
      · rw [if_pos hn, if_pos hn]
      · rw [if_neg hn, if_neg hn]
        congr 1
        have hf1 : 1 ≤ f1 := by
          by_contra hcon
          have : f1 = 0 := by omega
          subst this
          simp at hn1
          omega
        have hf2 : 1 ≤ f2 := by
          by_contra hcon
          have : f2 = 0 := by omega
          subst this
          simp at hn2
          omega
        refine ih f2 (n / 10) hf1 hf2 ?_ ?_ <;>
          rw [Nat.div_lt_iff_lt_mul (by norm_num), ← pow_succ] <;> assumption

lemma natCharsAux_length (fuel : ℕ) :
    ∀ n : ℕ, n < 10 ^ fuel → (natCharsAux fuel n).length ≤ fuel := by
  induction fuel with
  | zero =>
    intro n h
    simp [natCharsAux]
  | succ fuel ih =>
    intro n h
    unfold natCharsAux
    split
    · simp
    · rw [List.length_append]
      have hdiv : n / 10 < 10 ^ fuel := by
        rw [Nat.div_lt_iff_lt_mul (by norm_num), ← pow_succ]
        exact h
      have := ih _ hdiv
      simp only [List.length_singleton]
      omega

lemma natChars_length_le (n k : ℕ) (hk : 1 ≤ k) (h : n < 10 ^ k) :
    (natChars n).length ≤ k := by
  unfold natChars
  rw [natCharsAux_indep (n + 1) k n (by omega) hk
    (calc n < 10 ^ n := Nat.lt_pow_self (by norm_num) n
      _ ≤ 10 ^ (n + 1) := Nat.pow_le_pow_right (by norm_num) (Nat.le_succ n)) h]
  exact natCharsAux_length k n h

lemma padIzq_mem (k : ℕ) (l : List Char) (h : ∀ c ∈ l, charDigitoOk c = true) :
    ∀ c ∈ padIzq k l, charDigitoOk c = true := by
  intro c hc
  unfold padIzq at hc
  rw [List.mem_append] at hc
  rcases hc with hc | hc
  · rw [List.eq_of_mem_replicate hc]
    decide
  · exact h c hc

lemma padIzq_length (k : ℕ) (l : List Char) (h : l.length ≤ k) :
    (padIzq k l).length = k := by
  unfold padIzq
  rw [List.length_append, List.length_replicate]
  omega

lemma digitosVal_padIzq (k : ℕ) (l : List Char) :
    digitosVal (padIzq k l) = digitosVal l := by
  unfold padIzq digitosVal
  rw [List.foldl_append]
  congr 1
  induction (k - l.length) with
  | zero => rfl
  | succ j ih =>
    rw [List.replicate_succ, List.foldl_cons]
    simpa using ih

/-! ### Texts made only of digits and commas are inert for every scan -/

lemma dropWhile_fijo (p : Char → Bool) (l : List Char)
    (h : ∀ c ∈ l, p c = false) : l.dropWhile p = l := by
  cases l with
  | nil => rfl
  | cons c rest =>
    rw [List.dropWhile_cons, h c (List.mem_cons_self _ _)]
    rfl

lemma pyStrip_fijo (l : List Char) (h : ∀ c ∈ l, esEspacioPy c = false) :
    pyStrip l = l := by
  unfold pyStrip
  rw [dropWhile_fijo _ _ h,
    dropWhile_fijo _ _ (fun c hc => h c (List.mem_reverse.mp hc)),
    List.reverse_reverse]

lemma pyLower_fijo (l : List Char) (h : ∀ c ∈ l, Char.toLower c = c) :
    pyLower l = l := by
  unfold pyLower
  induction l with
  | nil => rfl
  | cons c rest ih =>
    rw [List.map_cons, h c (List.mem_cons_self _ _),
      ih (fun c hc => h c (List.mem_cons_of_mem _ hc))]

lemma canonizar_fijo (l : List Char)
    (h1 : ∀ c ∈ l, Char.toLower c = c) (h2 : ∀ c ∈ l, esEspacioPy c = false) :
    canonizar l = l := by
  unfold canonizar
  rw [pyLower_fijo l h1, pyStrip_fijo l h2]

lemma esTextoNulo_formato (t : List Char) (hne : t ≠ [])
    (h : ∀ c ∈ t, charFormatoOk c = true) : esTextoNulo t = false := by
  unfold esTextoNulo
  have h1 : t.isEmpty = false := by
    cases t with
    | nil => exact absurd rfl hne
    | cons c rest => rfl
  have h2 : (t == ("nan").data) = false := by
    rw [beq_eq_false_iff_ne]
    intro heq
    have := charFormatoOk_props ('n') (h ('n') (by rw [heq]; decide))
    exact absurd this.2.2.2.2.2.2.1 (by decide)
  have h3 : (t == ("none").data) = false := by
    rw [beq_eq_false_iff_ne]
    intro heq
    have := charFormatoOk_props ('n') (h ('n') (by rw [heq]; decide))
    exact absurd this.2.2.2.2.2.2.1 (by decide)
  rw [h1, h2, h3]
  rfl

lemma marcadorUSD?_none (l : List Char) (h : ∀ c ∈ l, c ≠ 'u' ∧ c ≠ 'd') :
    marcadorUSD? l = none := by
  unfold marcadorUSD?
  cases l with
  | nil => rfl
  | cons c rest =>
    have hc := h c (List.mem_cons_self _ _)
    rw [if_neg, if_neg, if_neg, if_neg]
    all_goals
      intro hcon
      simp only [List.take_succ_cons, List.cons.injEq] at hcon
    · exact hc.2 hcon.1
    · exact hc.1 hcon.1
    · exact hc.1 hcon.1
    · exact hc.1 hcon.1

lemma intentoNum_none (d1 punct r : List Char)
    (h : ∀ c ∈ r, c ≠ 'u' ∧ c ≠ 'd') : intentoNum d1 punct r = none := by
  unfold intentoNum
  dsimp only
  rw [marcadorUSD?_none]
  · rfl
  · intro c hc
    exact h c ((List.drop_sublist _ _).subset ((List.dropWhile_sublist _).subset hc))

lemma intentoUSD_none (l : List Char) (h : ∀ c ∈ l, c ≠ 'u' ∧ c ≠ 'd') :
    intentoUSD l = none := by
  unfold intentoUSD
  dsimp only
  split
  · rfl
  · have hdrop : ∀ c ∈ l.drop (l.takeWhile Char.isDigit).length, c ≠ 'u' ∧ c ≠ 'd' :=
      fun c hc => h c ((List.drop_sublist _ _).subset hc)
    split
    · rename_i c r heq
      have hcr : ∀ x ∈ c :: r, x ≠ 'u' ∧ x ≠ 'd' := by
        rw [← heq]
        exact hdrop
      split
      · rw [intentoNum_none _ _ _ (fun x hx => hcr x (List.mem_cons_of_mem _ hx)),
          intentoNum_none _ _ _ hcr]
      · exact intentoNum_none _ _ _ hcr
    · exact intentoNum_none _ _ _ (by intro c hc; cases hc)

lemma findallUSDAux_nil (fuel : ℕ) :
    ∀ l : List Char, (∀ c ∈ l, c ≠ 'u' ∧ c ≠ 'd') → findallUSDAux fuel l = [] := by
  induction fuel with
  | zero => intro l h; rfl
  | succ fuel ih =>
    intro l h
    cases l with
    | nil => rfl
    | cons c rest =>
      unfold findallUSDAux
      rw [intentoUSD_none _ h]
      exact ih rest (fun x hx => h x (List.mem_cons_of_mem _ hx))

lemma marcadorSub?_none (l : List Char)
    (h : ∀ c ∈ l, c ≠ 'u' ∧ c ≠ 'd' ∧ c ≠ '$') : marcadorSub? l = none := by
  unfold marcadorSub?
  cases l with
  | nil => rfl
  | cons c rest =>
    have hc := h c (List.mem_cons_self _ _)
    rw [if_neg, if_neg, if_neg, if_neg, if_neg]
    all_goals
      intro hcon
      simp only [List.take_succ_cons, List.cons.injEq] at hcon
    · exact hc.2.2 hcon.1
    · exact hc.2.1 hcon.1
    · exact hc.1 hcon.1
    · exact hc.1 hcon.1
    · exact hc.1 hcon.1

lemma subMarcadoresAux_fijo (fuel : ℕ) :
    ∀ l : List Char, (∀ c ∈ l, c ≠ 'u' ∧ c ≠ 'd' ∧ c ≠ '$') →
      subMarcadoresAux fuel l = l := by
  induction fuel with
  | zero => intro l h; rfl
  | succ fuel ih =>
    intro l h
    cases l with
    | nil => rfl
    | cons c rest =>
      unfold subMarcadoresAux
      rw [marcadorSub?_none _ h]
      rw [ih rest (fun x hx => h x (List.mem_cons_of_mem _ hx))]

lemma findNumsAux_vacia (fuel : ℕ) : findNumsAux fuel [] = [] := by
  cases fuel <;> rfl

lemma findNums_todo (l : List Char) (hne : l ≠ [])
    (h : ∀ c ∈ l, esCaracterNum c = true) : findNums l = [ l ] := by
  unfold findNums
  cases l with
  | nil => exact absurd rfl hne
  | cons c rest =>
    rw [List.length_cons]
    unfold findNumsAux
    rw [if_pos (h c (List.mem_cons_self _ _))]
    have ht : rest.takeWhile esCaracterNum = rest :=
      List.takeWhile_eq_self_iff.mpr (fun x hx => h x (List.mem_cons_of_mem _ hx))
    have hd : rest.dropWhile esCaracterNum = [] :=
      List.dropWhile_eq_nil_iff.mpr (fun x hx => h x (List.mem_cons_of_mem _ hx))
    rw [ht, hd, findNumsAux_vacia]

/-! ### Parsing a formatted amount back -/

lemma isDigit_no_punto (c : Char) (h : c.isDigit = true) : c ≠ '.' := by
  intro heq
  subst heq
  exact absurd h (by decide)

lemma isDigit_no_coma (c : Char) (h : c.isDigit = true) : c ≠ ',' := by
  intro heq
  subst heq
  exact absurd h (by decide)

lemma takeWhile_punto (A B : List Char) (hA : ∀ c ∈ A, c.isDigit = true) :
    (A ++ '.' :: B).takeWhile (fun c => c != '.') = A ∧
    (A ++ '.' :: B).dropWhile (fun c => c != '.') = '.' :: B := by
  induction A with
  | nil =>
    constructor
    · rw [List.nil_append, List.takeWhile_cons]
      norm_num
    · rw [List.nil_append, List.dropWhile_cons]
      norm_num
  | cons a A ih =>
    have ha : (a != '.') = true := by
      rw [bne_iff_ne]
      exact isDigit_no_punto a (hA a (List.mem_cons_self _ _))
    obtain ⟨h1, h2⟩ := ih (fun c hc => hA c (List.mem_cons_of_mem _ hc))
    constructor
    · rw [List.cons_append, List.takeWhile_cons, ha]
      simpa using h1
    · rw [List.cons_append, List.dropWhile_cons, ha]
      simpa using h2

lemma count_punto (A B : List Char) (hA : ∀ c ∈ A, c ≠ '.') (hB : ∀ c ∈ B, c ≠ '.') :
    (A ++ '.' :: B).count ('.') = 1 := by
  rw [List.count_append, List.count_cons_self,
    List.count_eq_zero.mpr (fun hc => hA _ hc rfl),
    List.count_eq_zero.mpr (fun hc => hB _ hc rfl)]

lemma parseFloat?_con_punto (A B : List Char)
    (hA : ∀ c ∈ A, c.isDigit = true) (hB : ∀ c ∈ B, c.isDigit = true)
    (hAne : A ≠ []) :
    parseFloat? (A ++ '.' :: B) =
      some ((digitosVal A : ℚ) + (digitosVal B : ℚ) / 10 ^ B.length) := by
  have hguard : (A ++ '.' :: B).any Char.isDigit ∧
      (A ++ '.' :: B).count ('.') ≤ 1 ∧
      (A ++ '.' :: B).all (fun c => c.isDigit || c == '.') := by
    refine ⟨?_, ?_, ?_⟩
    · rw [List.any_eq_true]
      cases A with
      | nil => exact absurd rfl hAne
      | cons a A =>
        exact ⟨a, by simp, hA a (List.mem_cons_self _ _)⟩
    · rw [count_punto A B (fun c hc => isDigit_no_punto c (hA c hc))
        (fun c hc => isDigit_no_punto c (hB c hc))]
    · rw [List.all_eq_true]
      intro c hc
      rw [List.mem_append, List.mem_cons] at hc
      rcases hc with hc | hc | hc
      · simp [hA c hc]
      · subst hc
        decide
      · simp [hB c hc]
  unfold parseFloat?
  rw [if_pos hguard]
  unfold floatVal parteEntera parteFrac
  obtain ⟨ht, hd⟩ := takeWhile_punto A B hA
  rw [ht, hd, List.drop_one, List.tail_cons]

lemma parseFloat?_entera (A : List Char) (hA : ∀ c ∈ A, c.isDigit = true)
    (hAne : A ≠ []) : parseFloat? A = some ((digitosVal A : ℚ)) := by
  have hbne : ∀ c ∈ A, (c != '.') = true := fun c hc => by
    rw [bne_iff_ne]
    exact isDigit_no_punto c (hA c hc)
  have hguard : A.any Char.isDigit ∧ A.count ('.') ≤ 1 ∧
      A.all (fun c => c.isDigit || c == '.') := by
    refine ⟨?_, ?_, ?_⟩
    · rw [List.any_eq_true]
      cases A with
      | nil => exact absurd rfl hAne
      | cons a A => exact ⟨a, by simp, hA a (List.mem_cons_self _ _)⟩
    · rw [List.count_eq_zero.mpr (fun hc => isDigit_no_punto _ (hA _ hc) rfl)]
      omega
    · rw [List.all_eq_true]
      intro c hc
      simp [hA c hc]
  unfold parseFloat?
  rw [if_pos hguard]
  congr 1
  refine floatVal_nat A (digitosVal A) ?_ ?_
  · unfold parteFrac
    rw [List.dropWhile_eq_nil_iff.mpr hbne]
    rfl
  · unfold parteEntera
    rw [List.takeWhile_eq_self_iff.mpr hbne]

lemma quitarPuntos_fijo (l : List Char) (h : ∀ c ∈ l, c ≠ '.') :
    quitarPuntos l = l := by
  unfold quitarPuntos
  induction l with
  | nil => rfl
  | cons c rest ih =>
    rw [List.filter_cons, if_pos (by
      rw [bne_iff_ne]
      exact h c (List.mem_cons_self _ _))]
    rw [ih (fun c hc => h c (List.mem_cons_of_mem _ hc))]

lemma comaAPunto_fijo (l : List Char) (h : ∀ c ∈ l, c ≠ ',') :
    comaAPunto l = l := by
  unfold comaAPunto
  induction l with
  | nil => rfl
  | cons c rest ih =>
    rw [List.map_cons, if_neg (h c (List.mem_cons_self _ _))]
    rw [ih (fun c hc => h c (List.mem_cons_of_mem _ hc))]

lemma comaAPunto_append (l1 l2 : List Char) :
    comaAPunto (l1 ++ l2) = comaAPunto l1 ++ comaAPunto l2 := by
  unfold comaAPunto
  exact List.map_append _ l1 l2

lemma comaAPunto_coma (l : List Char) :
    comaAPunto (',' :: l) = '.' :: comaAPunto l := by
  unfold comaAPunto
  rw [List.map_cons, if_pos rfl]

lemma formatDec_mem (n k : ℕ) :
    ∀ c ∈ formatDec n k, charFormatoOk c = true := by
  intro c hc
  unfold formatDec at hc
  split at hc
  · unfold charFormatoOk
    rw [natChars_mem _ c hc]
    rfl
  · rw [List.mem_append, List.mem_cons] at hc
    rcases hc with hc | hc | hc
    · unfold charFormatoOk
      rw [natChars_mem _ c hc]
      rfl
    · subst hc
      decide
    · unfold charFormatoOk
      rw [padIzq_mem _ _ (natChars_mem _) c hc]
      rfl

lemma formatDec_ne_nil (n k : ℕ) : formatDec n k ≠ [] := by
  unfold formatDec
  split
  · exact natChars_ne_nil n
  · simp

lemma div_mod_valor (n k : ℕ) :
    ((n / 10 ^ k : ℕ) : ℚ) + ((n % 10 ^ k : ℕ) : ℚ) / 10 ^ k = (n : ℚ) / 10 ^ k := by
  have h0 : ((10 : ℚ) ^ k) ≠ 0 := by positivity
  field_simp
  have h2 : ((10 ^ k * (n / 10 ^ k) + n % 10 ^ k : ℕ) : ℚ) = (n : ℚ) := by
    exact_mod_cast congrArg (fun m : ℕ => (m : ℚ)) (Nat.div_add_mod n (10 ^ k))
  push_cast at h2
  linear_combination h2

/-- Parsing the formatted amount `n / 10^k` as a peso candidate gives back
exactly `n / 10^k`. -/
lemma parsePesos?_formatDec (n k : ℕ) :
    parsePesos? (formatDec n k) = some ((n : ℚ) / 10 ^ k) := by
  by_cases hk : k = 0
  · subst hk
    have hfmt : formatDec n 0 = natChars n := by
      unfold formatDec
      rw [if_pos rfl]
    have hdig : ∀ c ∈ natChars n, c.isDigit = true :=
      fun c hc => (charDigitoOk_props c (natChars_mem n c hc)).1
    unfold parsePesos?
    dsimp only
    rw [hfmt, quitarPuntos_fijo _ (fun c hc => isDigit_no_punto c (hdig c hc)),
      comaAPunto_fijo _ (fun c hc => isDigit_no_coma c (hdig c hc))]
    rw [if_neg ?hno0, parseFloat?_entera _ hdig (natChars_ne_nil n),
      digitosVal_natChars]
    · rw [pow_zero, div_one]
    case hno0 =>
      rintro (h | h | h)
      · exact natChars_ne_nil n h
      · have := hdig ('.') (by rw [h]; decide)
        exact absurd this (by decide)
      · have := hdig (',') (by rw [h]; decide)
        exact absurd this (by decide)
  · have hk1 : 1 ≤ k := by omega
    have hfmt : formatDec n k =
        natChars (n / 10 ^ k) ++ ',' :: padIzq k (natChars (n % 10 ^ k)) := by
      unfold formatDec
      rw [if_neg hk]
    have hAdig : ∀ c ∈ natChars (n / 10 ^ k), c.isDigit = true :=
      fun c hc => (charDigitoOk_props c (natChars_mem _ c hc)).1
    have hBdig : ∀ c ∈ padIzq k (natChars (n % 10 ^ k)), c.isDigit = true :=
      fun c hc => (charDigitoOk_props c (padIzq_mem _ _ (natChars_mem _) c hc)).1
    have hlenB : (padIzq k (natChars (n % 10 ^ k))).length = k :=
      padIzq_length _ _ (natChars_length_le _ _ hk1
        (Nat.mod_lt _ (Nat.pos_pow_of_pos _ (by norm_num))))
    unfold parsePesos?
    dsimp only
    rw [hfmt, quitarPuntos_fijo _ ?hpt, comaAPunto_append,
      comaAPunto_fijo _ (fun c hc => isDigit_no_coma c (hAdig c hc)),
      comaAPunto_coma,
      comaAPunto_fijo _ (fun c hc => isDigit_no_coma c (hBdig c hc))]
    case hpt =>
      intro c hc
      rw [List.mem_append, List.mem_cons] at hc
      rcases hc with hc | hc | hc
      · exact isDigit_no_punto c (hAdig c hc)
      · subst hc
        decide
      · exact isDigit_no_punto c (hBdig c hc)
    rw [if_neg ?hno1,
      parseFloat?_con_punto _ _ hAdig hBdig (natChars_ne_nil _),
      digitosVal_natChars, digitosVal_padIzq, digitosVal_natChars, hlenB,
      div_mod_valor]
    case hno1 =>
      have hlen : (natChars (n / 10 ^ k) ++ '.' ::
          padIzq k (natChars (n % 10 ^ k))).length ≥ 2 := by
        rw [List.length_append, List.length_cons]
        have := natChars_ne_nil (n / 10 ^ k)
        have : (natChars (n / 10 ^ k)).length ≥ 1 :=
          List.length_pos.mpr (natChars_ne_nil _)
        omega
      rintro (h | h | h) <;> rw [h] at hlen <;> simp at hlen

/-- Normalizing the formatted amount `n / 10^k` returns exactly `n / 10^k`,
as long as the amount is not strictly between 2020 and 2030 (where the date
heuristic would suppress the sole candidate). -/
lemma formatDec_valor (n k : ℕ) (r : Option ℚ)
    (hy : ¬(2020 < (n : ℚ) / 10 ^ k ∧ (n : ℚ) / 10 ^ k < 2030)) :
    (limpiarCeldaAux (formatDec n k) r).1 = (n : ℚ) / 10 ^ k := by
  have hmem := formatDec_mem n k
  have hne := formatDec_ne_nil n k
  have hprops := fun c hc => charFormatoOk_props c (hmem c hc)
  have hcanon : canonizar (formatDec n k) = formatDec n k :=
    canonizar_fijo _ (fun c hc => (hprops c hc).1) (fun c hc => (hprops c hc).2.1)
  have hnulo : esTextoNulo (formatDec n k) = false :=
    esTextoNulo_formato _ hne hmem
  have hms : findallUSD (formatDec n k) = [] :=
    findallUSDAux_nil _ _
      (fun c hc => ⟨(hprops c hc).2.2.2.1, (hprops c hc).2.2.2.2.1⟩)
  have hsub : subMarcadores (formatDec n k) = formatDec n k :=
    subMarcadoresAux_fijo _ _ (fun c hc =>
      ⟨(hprops c hc).2.2.2.1, (hprops c hc).2.2.2.2.1, (hprops c hc).2.2.2.2.2.1⟩)
  have hnums : findNums (formatDec n k) = [ formatDec n k ] :=
    findNums_todo _ hne (fun c hc => (hprops c hc).2.2.2.2.2.2.1)
  have hletras : (formatDec n k).any esLetraAscii = false := by
    cases hany : (formatDec n k).any esLetraAscii
    · rfl
    · rw [List.any_eq_true] at hany
      obtain ⟨c, hc, hlet⟩ := hany
      rw [(hprops c hc).2.2.1] at hlet
      cases hlet
  have hP : [ formatDec n k ].foldl (pasoPesos ([ formatDec n k ]).length)
      (((0 : ℚ), formatDec n k).1, false) = ((0 : ℚ) + (n : ℚ) / 10 ^ k, false) := by
    show [ formatDec n k ].foldl (pasoPesos 1) ((0 : ℚ), false) = _
    rw [List.foldl_cons, pasoPesos_suma 1 ((0 : ℚ), false) _ _
      (parsePesos?_formatDec n k) (fun hcon => hy ⟨hcon.1, hcon.2.1⟩),
      List.foldl_nil]
  have h := limpiar_eval_total (formatDec n k) r (formatDec n k) hcanon hnulo
    [] hms ((0 : ℚ), formatDec n k) rfl false hletras (formatDec n k) hsub
    [ formatDec n k ] hnums ((0 : ℚ) + (n : ℚ) / 10 ^ k, false) hP
  rw [h]
  exact zero_add _

lemma parse_150 : parsePesos? (("150").data) = some ((150 : ℕ) : ℚ) :=
  parsePesos?_nat _ 150 (by decide) (by decide) (by decide) (by decide) (by decide)

/-- `normalize("150", 1000) = (150, [NORMAL])`. -/
lemma eval_150 : limpiarCeldaAux (("150").data) (some 1000) = (150, ["NORMAL"]) := by
  have hP : [ (("150").data) ].foldl (pasoPesos 1) ((0 : ℚ), false)
      = ((0 : ℚ) + (150 : ℕ), false) := by
    rw [List.foldl_cons, pasoPesos_suma 1 _ _ _ parse_150 (by norm_num),
      List.foldl_nil]
  have h := limpiar_eval_total (("150").data) (some 1000) (("150").data)
    (by decide) (by decide) [] (by decide) (0, (("150").data)) (by decide)
    false (by decide) (("150").data) (by decide) [ (("150").data) ] (by decide)
    ((0 : ℚ) + (150 : ℕ), false) hP
  rw [h]
  norm_num [notasDe]

/-- C2 as literally stated is false: `normalize("2025 0", 1000)` yields 2025,
its formatted text is `"2025"`, and re-normalizing that text yields 0 (the
date heuristic suppresses the now-sole candidate), not 2025. -/
theorem c2_idempotencia_contraejemplo :
    (limpiarCeldaAux (("2025 0").data) (some 1000)).1 = 2025 ∧
    formatDec 2025 0 = ("2025").data ∧
    (limpiarCeldaAux (formatDec 2025 0) (some 1000)).1 = 0 ∧
    (0 : ℚ) ≠ 2025 := by
  have hf : formatDec 2025 0 = ("2025").data := by decide
  refine ⟨?_, hf, ?_, by norm_num⟩
  · rw [eval_anio_y_cero]
  · rw [hf, eval_anio_solo]

/-- C2, amended: re-running the normalizer on its own numeric output,
formatted back to plain text (comma as decimal separator, no currency
marker), reproduces the same amount, provided the amount is not strictly
between 2020 and 2030 — in that range the date heuristic of the re-parse
suppresses the sole candidate and yields 0 instead. -/
theorem c2_idempotencia_formato (t : List Char) (r : Option ℚ) (n k : ℕ)
    (ha : (limpiarCeldaAux t r).1 = (n : ℚ) / 10 ^ k)
    (hy : ¬(2020 < (n : ℚ) / 10 ^ k ∧ (n : ℚ) / 10 ^ k < 2030)) :
    (limpiarCeldaAux (formatDec n k) r).1 = (limpiarCeldaAux t r).1 := by
  rw [ha]
  exact formatDec_valor n k r hy

/-- Witness for C2 at the cell `"150"` with rate 1000 (amount `150 / 10^0`). -/
theorem c2_idempotencia_formato_witness :
    (limpiarCeldaAux (("150").data) (some 1000)).1 = ((150 : ℕ) : ℚ) / 10 ^ (0 : ℕ) ∧
    (limpiarCeldaAux (formatDec 150 0) (some 1000)).1 =
      (limpiarCeldaAux (("150").data) (some 1000)).1 := by
  have ha : (limpiarCeldaAux (("150").data) (some 1000)).1 =
      ((150 : ℕ) : ℚ) / 10 ^ (0 : ℕ) := by
    rw [eval_150]
    norm_num
  exact ⟨ha, c2_idempotencia_formato (("150").data) (some 1000) 150 0 ha (by norm_num)⟩

end EtlIngresos
